import Mathlib

/-!
Shallow embedding of the `cult` virtual-machine interpreter (src/src/main.rs).

The machine works on unsigned 32-bit words, modelled here as `Nat` with
explicit reduction modulo `2 ^ 32` wherever the Rust code wraps.  A Rust
panic is modelled as `none` (a trap); console input is an explicit list of
byte values and console output an explicit list of emitted bytes.
-/

namespace Cult

/-- The constant `2 ^ 32`, the size of the word space. -/
def wordSize : Nat := 4294967296

-- ---------- INSTRUCTIONS ---------------------------------------------------

/-- The fourteen opcodes of `enum OpCode` in the source. -/
inductive OpCode where
  | CMOV
  | LOAD
  | STORE
  | ADD
  | MUL
  | DIV
  | NAND
  | HALT
  | ALLOC
  | FREE
  | OUT
  | IN
  | CALL
  | CONST
deriving DecidableEq

/-- Embeds `OpCode::from_byte`: the catch-all arm panics on an invalid instruction,
modelled as `none`. -/
def OpCode.from_byte (b : Nat) : Option OpCode :=
  match b with
  | 0x0 => some OpCode.CMOV
  | 0x1 => some OpCode.LOAD
  | 0x2 => some OpCode.STORE
  | 0x3 => some OpCode.ADD
  | 0x4 => some OpCode.MUL
  | 0x5 => some OpCode.DIV
  | 0x6 => some OpCode.NAND
  | 0x7 => some OpCode.HALT
  | 0x8 => some OpCode.ALLOC
  | 0x9 => some OpCode.FREE
  | 0xA => some OpCode.OUT
  | 0xB => some OpCode.IN
  | 0xC => some OpCode.CALL
  | 0xD => some OpCode.CONST
  | _ => none

/-- Embeds `fn upper_byte`: `(data >> 28) & 0b1111`. -/
def upper_byte (data : Nat) : Nat := (data >>> 28) &&& 0b1111

/-- Embeds `fn upper_reg`: `(data >> 25) & 0b111`. -/
def upper_reg (data : Nat) : Nat := (data >>> 25) &&& 0b111

/-- Embeds `fn upper_val`: `data & 0x1FFFFFF`. -/
def upper_val (data : Nat) : Nat := data &&& 0x1FFFFFF

/-- Embeds `fn parse_r_a`: `(data >> 6) & 0b111`. -/
def parse_r_a (data : Nat) : Nat := (data >>> 6) &&& 0b111

/-- Embeds `fn parse_r_b`: `(data >> 3) & 0b111`. -/
def parse_r_b (data : Nat) : Nat := (data >>> 3) &&& 0b111

/-- Embeds `fn parse_r_c`: `data & 0b111`. -/
def parse_r_c (data : Nat) : Nat := data &&& 0b111

/-- Embeds `struct Instruction`. -/
structure Instruction where
  op_code : OpCode
  r_a : Nat
  r_b : Nat
  r_c : Nat
  value : Nat
deriving DecidableEq

/-- Embeds `Instruction::decode`.  The thirteen three-register opcodes share one
arm; `CONST` takes the register from bits 27..25 and the value from bits
24..0.  An opcode byte of 0xE or 0xF makes `from_byte` panic (`none`). -/
def Instruction.decode (data : Nat) : Option Instruction :=
  match OpCode.from_byte (upper_byte data) with
  | none => none
  | some OpCode.CONST =>
      some { op_code := OpCode.CONST, r_a := upper_reg data, r_b := 0, r_c := 0,
             value := upper_val data }
  | some op =>
      some { op_code := op, r_a := parse_r_a data, r_b := parse_r_b data,
             r_c := parse_r_c data, value := 0 }

-- ---------- CPU EMULATION --------------------------------------------------

/-- Embeds `type Platter = Vec<Data>`. -/
abbrev Platter := List Nat

/-- Embeds `BTreeMap::get`, over an association list ordered by insertion. -/
def memGet : List (Nat × Platter) → Nat → Option Platter
  | [], _ => none
  | e :: rest, k => if e.1 = k then some e.2 else memGet rest k

/-- Embeds `BTreeMap::contains_key`. -/
def memContains (m : List (Nat × Platter)) (k : Nat) : Bool :=
  (memGet m k).isSome

/-- Embeds `BTreeMap::remove` (dropping every binding of the key; the interpreter
never creates a duplicate key, so this agrees with the map). -/
def memRemove : List (Nat × Platter) → Nat → List (Nat × Platter)
  | [], _ => []
  | e :: rest, k => if e.1 = k then memRemove rest k else e :: memRemove rest k

/-- In-place update `p[off] = w` of the platter bound to key `k`
(the `STORE` arm's `get_mut`). -/
def memSet (m : List (Nat × Platter)) (k : Nat) (off : Nat) (w : Nat) :
    List (Nat × Platter) :=
  m.map (fun e => if e.1 = k then (e.1, e.2.set off w) else e)

/-- The `while self.memory.contains_key(&self.next_allocate)` loop of the
`ALLOC` arm: keep incrementing (wrapping at `2 ^ 32`, the release-mode
behaviour of `+= 1` on `u32`) while the candidate key is taken.  `fuel`
bounds the search; the interpreter calls it with one more than the number
of bindings, which always suffices to reach the first free key. -/
def skipActive (m : List (Nat × Platter)) : Nat → Nat → Nat
  | n, 0 => n
  | n, fuel + 1 =>
      if memContains m n then skipActive m ((n + 1) % wordSize) fuel else n

/-- The conversion applied by the `IN` arm to the byte `x` it read:
`(x as i8 as i32) as Data` in the source, i.e. sign extension of the
byte into 32 bits. -/
def sign_convert (x : Nat) : Nat :=
  if x < 128 then x else x + 4294967040

/-- Embeds `struct CPU`.  Here `instruction_pointer` is a `u64` in the source and never
wraps here; `memory` is the `BTreeMap` of non-zero platters. -/
structure CPU where
  status : Bool
  register_file : List Nat
  instruction_pointer : Nat
  instruction_platter : List Nat
  memory : List (Nat × Platter)
  next_allocate : Nat
deriving DecidableEq

/-- Embeds `CPU::new`. -/
def CPU.new (program : List Nat) : CPU :=
  { status := true
    register_file := [0, 0, 0, 0, 0, 0, 0, 0]
    instruction_pointer := 0
    instruction_platter := program
    memory := []
    next_allocate := 1 }

/-- Embeds `CPU::fetch_instruction`: read the word at the execution pointer and
advance.  Indexing past the end of platter 0 panics in Rust; here it is
`none`. -/
def CPU.fetch_instruction (cpu : CPU) : Option (Nat × CPU) :=
  if cpu.instruction_pointer < cpu.instruction_platter.length then
    some (cpu.instruction_platter.getD cpu.instruction_pointer 0,
          { cpu with instruction_pointer := cpu.instruction_pointer + 1 })
  else
    none

/-- Embeds `CPU::execute_instruction`.  The result is the new state, the console
input left unread, and the bytes written to the console during the step;
`none` is a panic (trap).  Rust's out-of-bounds vector indexing in the
`LOAD`/`STORE` arms is likewise a panic, hence guarded here.  The `IN`
arm's `read!()` fails (panics) when the input is exhausted; the byte value
it delivers is taken as the head of `input`. -/
def CPU.execute_instruction (cpu : CPU) (inst : Instruction) (input : List Nat) :
    Option (CPU × List Nat × List Nat) :=
  match inst.op_code with
  | OpCode.CMOV =>
      if cpu.register_file.getD inst.r_c 0 ≠ 0 then
        some ({ cpu with register_file :=
                  cpu.register_file.set inst.r_a (cpu.register_file.getD inst.r_b 0) },
              input, [])
      else
        some (cpu, input, [])
  | OpCode.LOAD =>
      let b := cpu.register_file.getD inst.r_b 0
      let c := cpu.register_file.getD inst.r_c 0
      if b = 0 then
        if c < cpu.instruction_platter.length then
          some ({ cpu with register_file :=
                    cpu.register_file.set inst.r_a (cpu.instruction_platter.getD c 0) },
                input, [])
        else none
      else
        match memGet cpu.memory b with
        | none => none
        | some p =>
            if c < p.length then
              some ({ cpu with register_file :=
                        cpu.register_file.set inst.r_a (p.getD c 0) },
                    input, [])
            else none
  | OpCode.STORE =>
      let a := cpu.register_file.getD inst.r_a 0
      let b := cpu.register_file.getD inst.r_b 0
      let c := cpu.register_file.getD inst.r_c 0
      if a = 0 then
        if b < cpu.instruction_platter.length then
          some ({ cpu with instruction_platter := cpu.instruction_platter.set b c },
                input, [])
        else none
      else
        match memGet cpu.memory a with
        | none => none
        | some p =>
            if b < p.length then
              some ({ cpu with memory := memSet cpu.memory a b c }, input, [])
            else none
  | OpCode.ADD =>
      let b := cpu.register_file.getD inst.r_b 0
      let c := cpu.register_file.getD inst.r_c 0
      some ({ cpu with register_file :=
                cpu.register_file.set inst.r_a ((b + c) % wordSize) },
            input, [])
  | OpCode.MUL =>
      let b := cpu.register_file.getD inst.r_b 0
      let c := cpu.register_file.getD inst.r_c 0
      some ({ cpu with register_file :=
                cpu.register_file.set inst.r_a ((b * c) % wordSize) },
            input, [])
  | OpCode.DIV =>
      let b := cpu.register_file.getD inst.r_b 0
      let c := cpu.register_file.getD inst.r_c 0
      if c = 0 then none
      else
        some ({ cpu with register_file := cpu.register_file.set inst.r_a (b / c) },
              input, [])
  | OpCode.NAND =>
      let b := cpu.register_file.getD inst.r_b 0
      let c := cpu.register_file.getD inst.r_c 0
      some ({ cpu with register_file :=
                cpu.register_file.set inst.r_a ((b &&& c) ^^^ 4294967295) },
            input, [])
  | OpCode.HALT =>
      some ({ cpu with status := false }, input, [])
  | OpCode.ALLOC =>
      let c := cpu.register_file.getD inst.r_c 0
      if memContains cpu.memory cpu.next_allocate then
        none
      else
        let mem := (cpu.next_allocate, List.replicate c 0) :: cpu.memory
        some ({ cpu with
                  memory := mem
                  register_file := cpu.register_file.set inst.r_b cpu.next_allocate
                  next_allocate :=
                    skipActive mem ((cpu.next_allocate + 1) % wordSize)
                      (mem.length + 1) },
              input, [])
  | OpCode.FREE =>
      let c := cpu.register_file.getD inst.r_c 0
      if c = 0 then none
      else if memContains cpu.memory c then
        some ({ cpu with memory := memRemove cpu.memory c }, input, [])
      else none
  | OpCode.OUT =>
      let c := cpu.register_file.getD inst.r_c 0
      if c > 255 then none
      else some (cpu, input, [c])
  | OpCode.IN =>
      match input with
      | [] => none
      | x :: rest =>
          some ({ cpu with register_file :=
                    cpu.register_file.set inst.r_c (sign_convert x) },
                rest, [])
  | OpCode.CALL =>
      let b := cpu.register_file.getD inst.r_b 0
      let c := cpu.register_file.getD inst.r_c 0
      if b = 0 then
        some ({ cpu with instruction_pointer := c }, input, [])
      else
        match memGet cpu.memory b with
        | none => none
        | some p =>
            some ({ cpu with instruction_platter := p, instruction_pointer := c },
                  input, [])
  | OpCode.CONST =>
      some ({ cpu with register_file := cpu.register_file.set inst.r_a inst.value },
            input, [])

/-- One iteration of the `interpret` loop body after the status check:
fetch, decode, execute. -/
def CPU.step (cpu : CPU) (input : List Nat) : Option (CPU × List Nat × List Nat) :=
  match cpu.fetch_instruction with
  | none => none
  | some (data, cpu1) =>
      match Instruction.decode data with
      | none => none
      | some inst => cpu1.execute_instruction inst input

/-- Embeds `CPU::interpret`, cut off after `fuel` iterations; the result collects
the console output of the executed steps. -/
def CPU.interpretN : Nat → CPU → List Nat → Option (CPU × List Nat × List Nat)
  | 0, cpu, input => some (cpu, input, [])
  | fuel + 1, cpu, input =>
      if cpu.status = false then
        some (cpu, input, [])
      else
        match cpu.step input with
        | none => none
        | some (cpu1, input1, out1) =>
            match CPU.interpretN fuel cpu1 input1 with
            | none => none
            | some (cpu2, input2, out2) => some (cpu2, input2, out1 ++ out2)

/-- Allocator invariant: the next-identifier counter is non-zero and
strictly above every key bound in the memory universe. -/
def AllocInv (cpu : CPU) : Prop :=
  0 < cpu.next_allocate ∧
    ∀ k, memContains cpu.memory k = true → k < cpu.next_allocate

/-- A key answers `memContains` exactly when it is the first component of
some binding. -/
theorem memContains_iff_mem (m : List (Nat × Platter)) (k : Nat) :
    memContains m k = true ↔ k ∈ m.map Prod.fst := by
  induction m with
  | nil => simp [memContains, memGet]
  | cons e rest ih =>
      by_cases he : e.1 = k
      · simp [memContains, memGet, he]
      · simp only [memContains, memGet, if_neg he, List.map_cons, List.mem_cons]
        rw [← memContains]
        rw [ih]
        constructor
        · intro h
          exact Or.inr h
        · intro h
          cases h with
          | inl h => exact absurd h.symm he
          | inr h => exact h

-- ---------- HELPER LEMMAS --------------------------------------------------

theorem upper_byte_eq_div (w : Nat) : upper_byte w = w / 268435456 % 16 := by
  unfold upper_byte
  rw [Nat.shiftRight_eq_div_pow]
  exact Nat.and_pow_two_sub_one_eq_mod _ 4

theorem upper_byte_lt (w : Nat) : upper_byte w < 16 := by
  rw [upper_byte_eq_div]
  exact Nat.mod_lt _ (by omega)

theorem upper_reg_eq_div (w : Nat) : upper_reg w = w / 33554432 % 8 := by
  unfold upper_reg
  rw [Nat.shiftRight_eq_div_pow]
  exact Nat.and_pow_two_sub_one_eq_mod _ 3

theorem upper_val_eq_mod (w : Nat) : upper_val w = w % 33554432 := by
  unfold upper_val
  exact Nat.and_pow_two_sub_one_eq_mod _ 25

theorem parse_r_a_eq_div (w : Nat) : parse_r_a w = w / 64 % 8 := by
  unfold parse_r_a
  rw [Nat.shiftRight_eq_div_pow]
  exact Nat.and_pow_two_sub_one_eq_mod _ 3

theorem parse_r_b_eq_div (w : Nat) : parse_r_b w = w / 8 % 8 := by
  unfold parse_r_b
  rw [Nat.shiftRight_eq_div_pow]
  exact Nat.and_pow_two_sub_one_eq_mod _ 3

theorem parse_r_c_eq_mod (w : Nat) : parse_r_c w = w % 8 := by
  unfold parse_r_c
  exact Nat.and_pow_two_sub_one_eq_mod _ 3

/-- For each standard opcode byte the decoder delivers the three register
fields; the opcode is not `CONST`. -/
theorem decode_std (w : Nat) (h : upper_byte w ≤ 12) :
    ∃ op, OpCode.from_byte (upper_byte w) = some op ∧ op ≠ OpCode.CONST ∧
      Instruction.decode w =
        some { op_code := op, r_a := parse_r_a w, r_b := parse_r_b w,
               r_c := parse_r_c w, value := 0 } := by
  unfold Instruction.decode
  generalize hb : upper_byte w = b
  rw [hb] at h
  interval_cases b <;> exact ⟨_, rfl, by decide, rfl⟩

/-- Opcode byte 13 decodes as `CONST`. -/
theorem decode_const (w : Nat) (h : upper_byte w = 13) :
    Instruction.decode w =
      some { op_code := OpCode.CONST, r_a := upper_reg w, r_b := 0, r_c := 0,
             value := upper_val w } := by
  unfold Instruction.decode
  rw [h]
  rfl

/-- Opcode bytes 14 and 15 make the decoder trap. -/
theorem decode_malformed (w : Nat) (h : 14 ≤ upper_byte w) :
    Instruction.decode w = none := by
  have hlt := upper_byte_lt w
  unfold Instruction.decode
  generalize hb : upper_byte w = b
  rw [hb] at h hlt
  interval_cases b <;> rfl

theorem getD_set_self (l : List Nat) (i : Nat) (a : Nat) (h : i < l.length) :
    (l.set i a).getD i 0 = a := by
  induction l generalizing i with
  | nil => simp at h
  | cons x xs ih =>
      cases i with
      | zero => rfl
      | succ j =>
          simp only [List.length_cons, Nat.succ_lt_succ_iff] at h
          simpa [List.set, List.getD] using ih j h

theorem memContains_cons (e : Nat × Platter) (m : List (Nat × Platter)) (k : Nat) :
    memContains (e :: m) k = true ↔ e.1 = k ∨ memContains m k = true := by
  by_cases he : e.1 = k <;> simp [memContains, memGet, he]

/-- Updating a platter in place does not change which keys are bound. -/
theorem memSet_contains (m : List (Nat × Platter)) (a off w k : Nat) :
    memContains (memSet m a off w) k = memContains m k := by
  induction m with
  | nil => rfl
  | cons e rest ih =>
      by_cases hea : e.1 = a <;> by_cases hek : e.1 = k <;>
        simp_all [memSet, memContains, memGet]

/-- A key bound after `memRemove` was bound before. -/
theorem memRemove_contains (m : List (Nat × Platter)) (a k : Nat)
    (h : memContains (memRemove m a) k = true) : memContains m k = true := by
  induction m with
  | nil => simpa [memRemove] using h
  | cons e rest ih =>
      by_cases hea : e.1 = a
      · rw [memRemove, if_pos hea] at h
        rcases (memContains_cons e rest k).mpr (Or.inr (ih h)) with h2
        exact h2
      · rw [memRemove, if_neg hea] at h
        rcases (memContains_cons e (memRemove rest a) k).mp h with h2 | h2
        · exact (memContains_cons e rest k).mpr (Or.inl h2)
        · exact (memContains_cons e rest k).mpr (Or.inr (ih h2))

/-- The removed key is gone. -/
theorem memRemove_get_self (m : List (Nat × Platter)) (a : Nat) :
    memGet (memRemove m a) a = none := by
  induction m with
  | nil => rfl
  | cons e rest ih =>
      by_cases hea : e.1 = a
      · simpa [memRemove, hea] using ih
      · simpa [memRemove, memGet, hea] using ih

theorem memRemove_contains_self (m : List (Nat × Platter)) (a : Nat) :
    memContains (memRemove m a) a = false := by
  simp [memContains, memRemove_get_self]

instance (cpu : CPU) : Decidable (AllocInv cpu) := by
  unfold AllocInv
  have h : (∀ k, memContains cpu.memory k = true → k < cpu.next_allocate) ↔
      ∀ k ∈ cpu.memory.map Prod.fst, k < cpu.next_allocate := by
    constructor
    · intro h k hk
      exact h k ((memContains_iff_mem cpu.memory k).mpr hk)
    · intro h k hk
      exact h k ((memContains_iff_mem cpu.memory k).mp hk)
  rw [h]
  infer_instance

-- ---------- CLAIMS ---------------------------------------------------------

/-- C6: the decoder takes the opcode from bits 31..28; opcode 0xD takes its
register index from bits 27..25 and its immediate from bits 24..0; opcodes
0x0..0xC take register indices A, B, C from bits 8..6, 5..3, 2..0 and
ignore bits 27..9 without ever trapping on their value; opcode values 0xE
and 0xF (the only values ≥ 0xE of a 4-bit field) decode to a
malformed-instruction trap. -/
theorem decoder_field_extraction (w : Nat) :
    (w < wordSize → upper_byte w = w / 268435456)
    ∧ (14 ≤ upper_byte w → Instruction.decode w = none)
    ∧ (upper_byte w = 13 →
        Instruction.decode w =
          some { op_code := OpCode.CONST, r_a := w / 33554432 % 8, r_b := 0,
                 r_c := 0, value := w % 33554432 })
    ∧ (upper_byte w ≤ 12 →
        ∃ i, Instruction.decode w = some i
          ∧ i.r_a = w / 64 % 8 ∧ i.r_b = w / 8 % 8 ∧ i.r_c = w % 8
          ∧ ∀ w2, upper_byte w2 = upper_byte w → w2 % 512 = w % 512 →
              Instruction.decode w2 = Instruction.decode w) := by
  refine ⟨?_, decode_malformed w, ?_, ?_⟩
  · intro hw
    have hw' : w < 4294967296 := hw
    rw [upper_byte_eq_div]
    omega
  · intro h13
    rw [decode_const w h13, upper_reg_eq_div, upper_val_eq_mod]
  · intro hstd
    obtain ⟨op, hfb, hne, hdec⟩ := decode_std w hstd
    refine ⟨_, hdec, parse_r_a_eq_div w, parse_r_b_eq_div w, parse_r_c_eq_mod w, ?_⟩
    intro w2 hub hmod
    obtain ⟨op2, hfb2, hne2, hdec2⟩ := decode_std w2 (hub ▸ hstd)
    rw [hub] at hfb2
    rw [hfb] at hfb2
    have hop : op = op2 := by injection hfb2
    subst hop
    rw [hdec, hdec2]
    have ha : parse_r_a w2 = parse_r_a w := by
      rw [parse_r_a_eq_div, parse_r_a_eq_div]; omega
    have hb : parse_r_b w2 = parse_r_b w := by
      rw [parse_r_b_eq_div, parse_r_b_eq_div]; omega
    have hc : parse_r_c w2 = parse_r_c w := by
      rw [parse_r_c_eq_mod, parse_r_c_eq_mod]; omega
    rw [ha, hb, hc]

/-- Witness for C6: the word 0xD0000041 decodes as a load-immediate of 0x41
into register 0, and the word 0xE0000000 is a malformed-instruction trap. -/
theorem decoder_field_extraction_witness :
    upper_byte 3489660993 = 13
    ∧ Instruction.decode 3489660993 =
        some { op_code := OpCode.CONST, r_a := 3489660993 / 33554432 % 8, r_b := 0,
               r_c := 0, value := 3489660993 % 33554432 }
    ∧ Instruction.decode 3758096384 = none :=
  ⟨by decide, (decoder_field_extraction 3489660993).2.2.1 (by decide),
   (decoder_field_extraction 3758096384).2.1 (by decide)⟩

/-- C2 (code bug): the IN arm passes the byte it reads through
`as i8 as i32`, a sign extension.  The byte 128 therefore lands in the
register as 0xFFFFFF80 = 4294967168, not as the zero-extended value 128
the claim states; and at end of input the `read!()` call fails (modelled
as a trap) instead of delivering 0xFFFFFFFF. -/
theorem in_sign_extends_byte_128 :
    (CPU.new [0]).execute_instruction
        { op_code := OpCode.IN, r_a := 0, r_b := 0, r_c := 0, value := 0 } [128]
      = some ({ CPU.new [0] with
                  register_file := [4294967168, 0, 0, 0, 0, 0, 0, 0] }, [], [])
    ∧ (CPU.new [0]).execute_instruction
        { op_code := OpCode.IN, r_a := 0, r_b := 0, r_c := 0, value := 0 } [] = none
    ∧ sign_convert 128 = 4294967168
    ∧ (4294967168 : Nat) ≠ 128 := by
  refine ⟨by decide, by decide, by decide, by decide⟩

/-- C5: DIV traps exactly when [rC] = 0; otherwise it writes the unsigned
floor quotient ⌊[rB] / [rC]⌋ (Nat division is the floor quotient) into rA
and changes nothing else. -/
theorem div_trap_iff_zero (cpu : CPU) (inst : Instruction) (input : List Nat)
    (h : inst.op_code = OpCode.DIV) :
    (cpu.execute_instruction inst input = none ↔
        cpu.register_file.getD inst.r_c 0 = 0)
    ∧ (cpu.register_file.getD inst.r_c 0 ≠ 0 →
        cpu.execute_instruction inst input =
          some ({ cpu with
                    register_file := cpu.register_file.set inst.r_a
                      (cpu.register_file.getD inst.r_b 0 /
                        cpu.register_file.getD inst.r_c 0) },
                input, [])) := by
  simp only [CPU.execute_instruction, h]
  by_cases hc : cpu.register_file.getD inst.r_c 0 = 0
  · simp [hc]
  · simp [hc]

/-- Witness for C5: dividing 8 by 3 yields 2, and a zero divisor traps. -/
theorem div_trap_iff_zero_witness :
    ({ CPU.new [0] with register_file := [0, 8, 3, 0, 0, 0, 0, 0] } : CPU).execute_instruction
        { op_code := OpCode.DIV, r_a := 0, r_b := 1, r_c := 2, value := 0 } []
      = some ({ CPU.new [0] with register_file := [2, 8, 3, 0, 0, 0, 0, 0] }, [], [])
    ∧ ({ CPU.new [0] with register_file := [0, 8, 0, 0, 0, 0, 0, 0] } : CPU).execute_instruction
        { op_code := OpCode.DIV, r_a := 0, r_b := 1, r_c := 2, value := 0 } [] = none := by
  constructor
  · have h := (div_trap_iff_zero
      ({ CPU.new [0] with register_file := [0, 8, 3, 0, 0, 0, 0, 0] })
      { op_code := OpCode.DIV, r_a := 0, r_b := 1, r_c := 2, value := 0 } [] rfl).2
      (by decide)
    simpa using h
  · have h := (div_trap_iff_zero
      ({ CPU.new [0] with register_file := [0, 8, 0, 0, 0, 0, 0, 0] })
      { op_code := OpCode.DIV, r_a := 0, r_b := 1, r_c := 2, value := 0 } [] rfl).1
    exact h.mpr (by decide)

/-- C7: CMOV with [rC] = 0 leaves the whole machine state unchanged (the
execution-pointer advance belongs to the fetch, not to this arm); with
[rC] ≠ 0 it writes the pre-instruction value of [rB] into rA.  Both
right-hand sides read only the pre-state, so the result is well defined
for every aliasing of rA, rB, rC. -/
theorem cmov_reads_condition_first (cpu : CPU) (inst : Instruction) (input : List Nat)
    (h : inst.op_code = OpCode.CMOV) :
    (cpu.register_file.getD inst.r_c 0 = 0 →
        cpu.execute_instruction inst input = some (cpu, input, []))
    ∧ (cpu.register_file.getD inst.r_c 0 ≠ 0 →
        cpu.execute_instruction inst input =
          some ({ cpu with
                    register_file := cpu.register_file.set inst.r_a
                      (cpu.register_file.getD inst.r_b 0) },
                input, [])) := by
  constructor
  · intro hc
    simp only [CPU.execute_instruction, h]
    rw [if_neg (not_not_intro hc)]
  · intro hc
    simp only [CPU.execute_instruction, h]
    rw [if_pos hc]

/-- Witness for C7: a self-targeting CMOV (rA = rB = 3) with true condition
leaves r3 at its own value, and a false condition changes nothing. -/
theorem cmov_reads_condition_first_witness :
    ({ CPU.new [0] with register_file := [0, 0, 1, 7, 0, 0, 0, 0] } : CPU).execute_instruction
        { op_code := OpCode.CMOV, r_a := 3, r_b := 3, r_c := 2, value := 0 } []
      = some ({ CPU.new [0] with register_file := [0, 0, 1, 7, 0, 0, 0, 0] }, [], [])
    ∧ ({ CPU.new [0] with register_file := [0, 0, 0, 7, 0, 0, 0, 0] } : CPU).execute_instruction
        { op_code := OpCode.CMOV, r_a := 3, r_b := 3, r_c := 2, value := 0 } []
      = some ({ CPU.new [0] with register_file := [0, 0, 0, 7, 0, 0, 0, 0] }, [], []) := by
  constructor
  · have h := (cmov_reads_condition_first
      ({ CPU.new [0] with register_file := [0, 0, 1, 7, 0, 0, 0, 0] })
      { op_code := OpCode.CMOV, r_a := 3, r_b := 3, r_c := 2, value := 0 } [] rfl).2
      (by decide)
    simpa using h
  · exact (cmov_reads_condition_first
      ({ CPU.new [0] with register_file := [0, 0, 0, 7, 0, 0, 0, 0] })
      { op_code := OpCode.CMOV, r_a := 3, r_b := 3, r_c := 2, value := 0 } [] rfl).1
      (by decide)

/-- C8: whenever the execution pointer is at or past the end of array 0,
the fetch yields no word (it is a trap), and the whole fetch-decode-execute
step likewise traps. -/
theorem fetch_past_end_traps (cpu : CPU) (input : List Nat)
    (h : cpu.instruction_platter.length ≤ cpu.instruction_pointer) :
    cpu.fetch_instruction = none ∧ cpu.step input = none := by
  have hf : cpu.fetch_instruction = none := by
    unfold CPU.fetch_instruction
    rw [if_neg (by omega)]
  refine ⟨hf, ?_⟩
  unfold CPU.step
  rw [hf]

/-- Witness for C8: a machine with an empty array 0 traps on its first
fetch. -/
theorem fetch_past_end_traps_witness :
    (CPU.new []).fetch_instruction = none ∧ (CPU.new []).step [] = none :=
  fetch_past_end_traps (CPU.new []) [] (by decide)

/-- A successful STORE whose target register holds a non-zero id never
touches array 0. -/
theorem store_nonzero_keeps_platter (cpu : CPU) (st : Instruction)
    (input : List Nat) (cpu2 : CPU) (rest out : List Nat)
    (hst : st.op_code = OpCode.STORE)
    (ha : cpu.register_file.getD st.r_a 0 ≠ 0)
    (hex : cpu.execute_instruction st input = some (cpu2, rest, out)) :
    cpu2.instruction_platter = cpu.instruction_platter := by
  simp only [CPU.execute_instruction, hst] at hex
  rw [if_neg ha] at hex
  split at hex
  · cases hex
  · split at hex
    · cases hex
      rfl
    · cases hex

/-- C1: LOAD-PROGRAM (CALL) with [rB] = 0 leaves the contents of array 0
completely unchanged and only sets the execution pointer to [rC]; with
[rB] a non-zero active identifier, array 0 becomes a copy of that array —
a subsequent successful STORE into the source array leaves the running
array 0 untouched — and the pointer is set to [rC]. -/
theorem load_program_copy_semantics (cpu : CPU) (inst : Instruction)
    (input : List Nat) (h : inst.op_code = OpCode.CALL) :
    (cpu.register_file.getD inst.r_b 0 = 0 →
        cpu.execute_instruction inst input =
          some ({ cpu with instruction_pointer := cpu.register_file.getD inst.r_c 0 },
                input, []))
    ∧ (∀ p, cpu.register_file.getD inst.r_b 0 ≠ 0 →
        memGet cpu.memory (cpu.register_file.getD inst.r_b 0) = some p →
        ∃ cpu1, cpu.execute_instruction inst input = some (cpu1, input, [])
          ∧ cpu1.instruction_platter = p
          ∧ cpu1.instruction_pointer = cpu.register_file.getD inst.r_c 0
          ∧ cpu1.register_file = cpu.register_file
          ∧ ∀ st input2 cpu2 rest2 out2, st.op_code = OpCode.STORE →
              cpu1.register_file.getD st.r_a 0 = cpu.register_file.getD inst.r_b 0 →
              cpu1.execute_instruction st input2 = some (cpu2, rest2, out2) →
              cpu2.instruction_platter = p) := by
  constructor
  · intro hb
    simp only [CPU.execute_instruction, h]
    rw [if_pos hb]
  · intro p hb hm
    refine ⟨{ cpu with
                instruction_platter := p,
                instruction_pointer := cpu.register_file.getD inst.r_c 0 },
            ?_, rfl, rfl, rfl, ?_⟩
    · simp only [CPU.execute_instruction, h]
      rw [if_neg hb, hm]
    · intro st input2 cpu2 rest2 out2 hst hsa hex
      exact store_nonzero_keeps_platter _ st input2 cpu2 rest2 out2 hst
        (by rw [hsa]; exact hb) hex

/-- Witness for C1: with r1 = 0 and r2 = 3, CALL jumps to offset 3 leaving
the four-word program in array 0 untouched. -/
theorem load_program_copy_semantics_witness :
    ({ CPU.new [1, 2, 3, 4] with register_file := [0, 0, 3, 0, 0, 0, 0, 0] } : CPU).execute_instruction
        { op_code := OpCode.CALL, r_a := 0, r_b := 1, r_c := 2, value := 0 } []
      = some ({ CPU.new [1, 2, 3, 4] with
                  register_file := [0, 0, 3, 0, 0, 0, 0, 0],
                  instruction_pointer := 3 }, [], []) := by
  have h := (load_program_copy_semantics
    ({ CPU.new [1, 2, 3, 4] with register_file := [0, 0, 3, 0, 0, 0, 0, 0] })
    { op_code := OpCode.CALL, r_a := 0, r_b := 1, r_c := 2, value := 0 } [] rfl).1
    (by decide)
  exact h.trans (by decide)

/-- C10: a successful LOAD-PROGRAM (CALL) changes neither the eight
registers, nor any non-zero array of the memory universe, nor the running
status nor the allocation counter; it consumes no input and emits no
output.  Its only effects are on array 0's contents and the execution
pointer. -/
theorem load_program_frame (cpu : CPU) (inst : Instruction) (input : List Nat)
    (cpu1 : CPU) (input1 out1 : List Nat)
    (h : inst.op_code = OpCode.CALL)
    (hex : cpu.execute_instruction inst input = some (cpu1, input1, out1)) :
    cpu1.register_file = cpu.register_file ∧ cpu1.memory = cpu.memory
    ∧ cpu1.status = cpu.status ∧ cpu1.next_allocate = cpu.next_allocate
    ∧ input1 = input ∧ out1 = [] := by
  simp only [CPU.execute_instruction, h] at hex
  by_cases hb : cpu.register_file.getD inst.r_b 0 = 0
  · rw [if_pos hb] at hex
    cases hex
    exact ⟨rfl, rfl, rfl, rfl, rfl, rfl⟩
  · rw [if_neg hb] at hex
    cases hmem : memGet cpu.memory (cpu.register_file.getD inst.r_b 0) with
    | none => rw [hmem] at hex; cases hex
    | some p =>
        rw [hmem] at hex
        cases hex
        exact ⟨rfl, rfl, rfl, rfl, rfl, rfl⟩

/-- Witness for C10: the CALL of the C1 witness preserves registers,
memory, status and counter. -/
theorem load_program_frame_witness :
    ({ CPU.new [1, 2, 3, 4] with
         register_file := [0, 0, 3, 0, 0, 0, 0, 0],
         instruction_pointer := 3 } : CPU).register_file
      = ({ CPU.new [1, 2, 3, 4] with
             register_file := [0, 0, 3, 0, 0, 0, 0, 0] } : CPU).register_file
    ∧ ({ CPU.new [1, 2, 3, 4] with
           register_file := [0, 0, 3, 0, 0, 0, 0, 0],
           instruction_pointer := 3 } : CPU).memory
      = ({ CPU.new [1, 2, 3, 4] with
             register_file := [0, 0, 3, 0, 0, 0, 0, 0] } : CPU).memory := by
  have h := load_program_frame
    ({ CPU.new [1, 2, 3, 4] with register_file := [0, 0, 3, 0, 0, 0, 0, 0] })
    { op_code := OpCode.CALL, r_a := 0, r_b := 1, r_c := 2, value := 0 } []
    ({ CPU.new [1, 2, 3, 4] with
         register_file := [0, 0, 3, 0, 0, 0, 0, 0], instruction_pointer := 3 })
    [] [] rfl (by decide)
  exact ⟨h.1, h.2.1⟩

/-- C4: FREE traps exactly when [rC] = 0 or [rC] is not an active id; on a
non-zero active id it succeeds, the id becomes inactive, and every
subsequent LOAD, STORE, FREE or LOAD-PROGRAM referencing that id (before
any reallocation) traps. -/
theorem free_trap_iff_and_invalidates (cpu : CPU) (inst : Instruction)
    (input : List Nat) (c : Nat)
    (h : inst.op_code = OpCode.FREE)
    (hc : c = cpu.register_file.getD inst.r_c 0) :
    (cpu.execute_instruction inst input = none ↔
        (c = 0 ∨ memContains cpu.memory c = false))
    ∧ (c ≠ 0 → memContains cpu.memory c = true →
        ∃ cpu1, cpu.execute_instruction inst input = some (cpu1, input, [])
          ∧ memContains cpu1.memory c = false
          ∧ cpu1.register_file = cpu.register_file
          ∧ (∀ st input2, st.op_code = OpCode.LOAD →
               cpu1.register_file.getD st.r_b 0 = c →
               cpu1.execute_instruction st input2 = none)
          ∧ (∀ st input2, st.op_code = OpCode.STORE →
               cpu1.register_file.getD st.r_a 0 = c →
               cpu1.execute_instruction st input2 = none)
          ∧ (∀ st input2, st.op_code = OpCode.FREE →
               cpu1.register_file.getD st.r_c 0 = c →
               cpu1.execute_instruction st input2 = none)
          ∧ (∀ st input2, st.op_code = OpCode.CALL →
               cpu1.register_file.getD st.r_b 0 = c →
               cpu1.execute_instruction st input2 = none)) := by
  subst hc
  constructor
  · constructor
    · intro hnone
      by_cases h0 : cpu.register_file.getD inst.r_c 0 = 0
      · exact Or.inl h0
      · by_cases hact : memContains cpu.memory (cpu.register_file.getD inst.r_c 0) = true
        · exfalso
          simp only [CPU.execute_instruction, h] at hnone
          rw [if_neg h0, if_pos hact] at hnone
          exact Option.noConfusion hnone
        · exact Or.inr (by simpa using hact)
    · intro hor
      simp only [CPU.execute_instruction, h]
      by_cases h0 : cpu.register_file.getD inst.r_c 0 = 0
      · rw [if_pos h0]
      · rcases hor with h0' | hact
        · exact absurd h0' h0
        · rw [if_neg h0, if_neg (by rw [hact]; simp)]
  · intro h0 hact
    refine ⟨{ cpu with
                memory := memRemove cpu.memory (cpu.register_file.getD inst.r_c 0) },
            ?_, memRemove_contains_self _ _, rfl, ?_, ?_, ?_, ?_⟩
    · simp only [CPU.execute_instruction, h]
      rw [if_neg h0, if_pos hact]
    · intro st input2 hst hsb
      simp only [CPU.execute_instruction, hst]
      rw [hsb, if_neg h0, memRemove_get_self]
    · intro st input2 hst hsa
      simp only [CPU.execute_instruction, hst]
      rw [hsa, if_neg h0, memRemove_get_self]
    · intro st input2 hst hsc
      simp only [CPU.execute_instruction, hst]
      rw [hsc, if_neg h0]
      rw [if_neg (by simp [memRemove_contains_self])]
    · intro st input2 hst hsb
      simp only [CPU.execute_instruction, hst]
      rw [hsb, if_neg h0, memRemove_get_self]

/-- Witness for C4: freeing the only active array (id 1) succeeds and makes
id 1 inactive, and a second FREE of id 1 right after traps. -/
theorem free_trap_iff_and_invalidates_witness :
    (∃ cpu1, ({ CPU.new [0] with
         register_file := [0, 1, 0, 0, 0, 0, 0, 0],
         memory := [(1, [5, 6])],
         next_allocate := 2 } : CPU).execute_instruction
          { op_code := OpCode.FREE, r_a := 0, r_b := 0, r_c := 1, value := 0 } []
        = some (cpu1, [], [])
      ∧ memContains cpu1.memory 1 = false)
    ∧ ({ CPU.new [0] with
           register_file := [0, 1, 0, 0, 0, 0, 0, 0],
           memory := [],
           next_allocate := 2 } : CPU).execute_instruction
        { op_code := OpCode.FREE, r_a := 0, r_b := 0, r_c := 1, value := 0 } [] = none := by
  constructor
  · have h := ((free_trap_iff_and_invalidates
      ({ CPU.new [0] with
           register_file := [0, 1, 0, 0, 0, 0, 0, 0],
           memory := [(1, [5, 6])],
           next_allocate := 2 })
      { op_code := OpCode.FREE, r_a := 0, r_b := 0, r_c := 1, value := 0 } []
      1 rfl rfl).2 (by decide) (by decide))
    obtain ⟨cpu1, hex, hinact, -, -, -, -, -⟩ := h
    exact ⟨cpu1, hex, hinact⟩
  · have h := (free_trap_iff_and_invalidates
      ({ CPU.new [0] with
           register_file := [0, 1, 0, 0, 0, 0, 0, 0],
           memory := [],
           next_allocate := 2 })
      { op_code := OpCode.FREE, r_a := 0, r_b := 0, r_c := 1, value := 0 } []
      1 rfl rfl).1
    exact h.mpr (Or.inr (by decide))

theorem getD_replicate_zero (n k : Nat) : (List.replicate n (0 : Nat)).getD k 0 = 0 := by
  induction n generalizing k with
  | zero => cases k <;> rfl
  | succ m ih =>
      cases k with
      | zero => rfl
      | succ j => exact ih j

/-- C3: in a state satisfying the allocator invariant (which C9 shows holds
in every reachable state), ALLOC with [rC] = n — n = 0 included — succeeds,
writes the non-zero, previously inactive identifier `next_allocate` into
rB, and binds that identifier to an array of length exactly n whose every
offset k < n reads as 0. -/
theorem alloc_fresh_zeroed (cpu : CPU) (inst : Instruction) (input : List Nat)
    (n : Nat)
    (h : inst.op_code = OpCode.ALLOC)
    (hn : n = cpu.register_file.getD inst.r_c 0)
    (h0 : cpu.next_allocate ≠ 0)
    (hfree : memContains cpu.memory cpu.next_allocate = false)
    (hr : inst.r_b < cpu.register_file.length) :
    ∃ cpu1, cpu.execute_instruction inst input = some (cpu1, input, [])
      ∧ cpu1.register_file.getD inst.r_b 0 = cpu.next_allocate
      ∧ cpu.next_allocate ≠ 0
      ∧ memGet cpu1.memory cpu.next_allocate = some (List.replicate n 0)
      ∧ (List.replicate n 0).length = n
      ∧ ∀ k, k < n → (List.replicate n 0).getD k 0 = 0 := by
  subst hn
  refine ⟨{ cpu with
              memory := (cpu.next_allocate,
                List.replicate (cpu.register_file.getD inst.r_c 0) 0) :: cpu.memory
              register_file := cpu.register_file.set inst.r_b cpu.next_allocate
              next_allocate := skipActive
                ((cpu.next_allocate,
                   List.replicate (cpu.register_file.getD inst.r_c 0) 0) :: cpu.memory)
                ((cpu.next_allocate + 1) % wordSize)
                (((cpu.next_allocate,
                    List.replicate (cpu.register_file.getD inst.r_c 0) 0) :: cpu.memory).length + 1) },
          ?_, getD_set_self _ _ _ hr, h0, by simp [memGet],
          List.length_replicate _ _, fun k _ => getD_replicate_zero _ k⟩
  simp only [CPU.execute_instruction, h]
  rw [if_neg (by simp [hfree])]

/-- Witness for C3: allocating a 2-word array in the initial machine binds
id 1 to [0, 0] and writes 1 into r3. -/
theorem alloc_fresh_zeroed_witness :
    ∃ cpu1, (({ CPU.new [0] with
          register_file := [0, 0, 2, 0, 0, 0, 0, 0] } : CPU).execute_instruction
        { op_code := OpCode.ALLOC, r_a := 0, r_b := 3, r_c := 2, value := 0 } []
      = some (cpu1, [], []))
      ∧ cpu1.register_file.getD 3 0 = 1
      ∧ memGet cpu1.memory 1 = some [0, 0] := by
  obtain ⟨cpu1, hex, hreg, -, hmem, -, -⟩ := alloc_fresh_zeroed
    ({ CPU.new [0] with register_file := [0, 0, 2, 0, 0, 0, 0, 0] })
    { op_code := OpCode.ALLOC, r_a := 0, r_b := 3, r_c := 2, value := 0 } [] 2
    rfl (by decide) (by decide) (by decide) (by decide)
  exact ⟨cpu1, hex, hreg, hmem⟩

theorem skipActive_free (m : List (Nat × Platter)) (n fuel : Nat)
    (h : memContains m n = false) : skipActive m n (fuel + 1) = n := by
  simp [skipActive, h]

/-- One executed instruction preserves the allocator invariant, moves the
counter up by at most one, and — for ALLOC — hands out exactly the old
counter value as the fresh id. -/
theorem execute_allocInv (cpu : CPU) (inst : Instruction) (input : List Nat)
    (cpu1 : CPU) (input1 out1 : List Nat)
    (hinv : AllocInv cpu) (hov : cpu.next_allocate + 1 < wordSize)
    (hex : cpu.execute_instruction inst input = some (cpu1, input1, out1)) :
    AllocInv cpu1 ∧ cpu.next_allocate ≤ cpu1.next_allocate
      ∧ cpu1.next_allocate ≤ cpu.next_allocate + 1
      ∧ (inst.op_code = OpCode.ALLOC →
           memContains cpu.memory cpu.next_allocate = false
           ∧ cpu1.next_allocate = cpu.next_allocate + 1
           ∧ cpu1.register_file = cpu.register_file.set inst.r_b cpu.next_allocate
           ∧ cpu1.memory = (cpu.next_allocate,
               List.replicate (cpu.register_file.getD inst.r_c 0) 0) :: cpu.memory) := by
  obtain ⟨hpos, hkeys⟩ := hinv
  obtain ⟨op, ra, rb, rc, v⟩ := inst
  cases op
  case LOAD =>
      simp only [CPU.execute_instruction] at hex
      split at hex
      · split at hex
        · cases hex
          exact ⟨⟨hpos, hkeys⟩, Nat.le_refl _, Nat.le_succ _,
                 fun hAl => OpCode.noConfusion hAl⟩
        · cases hex
      · split at hex
        · cases hex
        · split at hex
          · cases hex
            exact ⟨⟨hpos, hkeys⟩, Nat.le_refl _, Nat.le_succ _,
                   fun hAl => OpCode.noConfusion hAl⟩
          · cases hex
  case CALL =>
      simp only [CPU.execute_instruction] at hex
      split at hex
      · cases hex
        exact ⟨⟨hpos, hkeys⟩, Nat.le_refl _, Nat.le_succ _,
               fun hAl => OpCode.noConfusion hAl⟩
      · split at hex
        · cases hex
        · cases hex
          exact ⟨⟨hpos, hkeys⟩, Nat.le_refl _, Nat.le_succ _,
                 fun hAl => OpCode.noConfusion hAl⟩
  case STORE =>
      simp only [CPU.execute_instruction] at hex
      split at hex
      · split at hex
        · cases hex
          exact ⟨⟨hpos, hkeys⟩, Nat.le_refl _, Nat.le_succ _,
                 fun hAl => OpCode.noConfusion hAl⟩
        · cases hex
      · split at hex
        · cases hex
        · split at hex
          · cases hex
            refine ⟨⟨hpos, ?_⟩, Nat.le_refl _, Nat.le_succ _,
                    fun hAl => OpCode.noConfusion hAl⟩
            intro k hk
            rw [memSet_contains] at hk
            exact hkeys k hk
          · cases hex
  case FREE =>
      simp only [CPU.execute_instruction] at hex
      split at hex
      · cases hex
      · split at hex
        · cases hex
          refine ⟨⟨hpos, ?_⟩, Nat.le_refl _, Nat.le_succ _,
                  fun hAl => OpCode.noConfusion hAl⟩
          intro k hk
          exact hkeys k (memRemove_contains _ _ _ hk)
        · cases hex
  case ALLOC =>
      simp only [CPU.execute_instruction] at hex
      split at hex
      · cases hex
      · rename_i hfree0
        cases hex
        have hfree : memContains cpu.memory cpu.next_allocate = false := by
          simpa using hfree0
        have hncont :
            memContains ((cpu.next_allocate,
              List.replicate (cpu.register_file.getD rc 0) 0) :: cpu.memory)
              (cpu.next_allocate + 1) = false := by
          rw [Bool.eq_false_iff]
          intro hcontra
          rcases (memContains_cons _ _ _).mp hcontra with h1 | h1
          · have h1' : cpu.next_allocate = cpu.next_allocate + 1 := h1
            omega
          · have := hkeys _ h1
            omega
        have hskip : skipActive
            ((cpu.next_allocate,
               List.replicate (cpu.register_file.getD rc 0) 0) :: cpu.memory)
            ((cpu.next_allocate + 1) % wordSize)
            (((cpu.next_allocate,
                List.replicate (cpu.register_file.getD rc 0) 0) :: cpu.memory).length + 1)
            = cpu.next_allocate + 1 := by
          rw [Nat.mod_eq_of_lt hov]
          exact skipActive_free _ _ _ hncont
        refine ⟨⟨lt_of_lt_of_eq (by omega) hskip.symm, ?_⟩,
                le_of_le_of_eq (by omega) hskip.symm,
                le_of_eq hskip,
                fun _ => ⟨hfree, hskip, rfl, rfl⟩⟩
        intro k hk
        have hlt : k < cpu.next_allocate + 1 := by
          rcases (memContains_cons _ _ _).mp hk with h1 | h1
          · have h1' : cpu.next_allocate = k := h1
            omega
          · have := hkeys k h1
            omega
        exact lt_of_lt_of_eq hlt hskip.symm
  all_goals simp only [CPU.execute_instruction] at hex
  all_goals repeat split at hex
  all_goals cases hex
  all_goals exact ⟨⟨hpos, hkeys⟩, Nat.le_refl _, Nat.le_succ _,
                   fun hAl => OpCode.noConfusion hAl⟩

/-- One full fetch-decode-execute step preserves the allocator invariant
and moves the counter up by at most one. -/
theorem step_allocInv (cpu : CPU) (input : List Nat) (cpu1 : CPU)
    (input1 out1 : List Nat)
    (hinv : AllocInv cpu) (hov : cpu.next_allocate + 1 < wordSize)
    (hex : cpu.step input = some (cpu1, input1, out1)) :
    AllocInv cpu1 ∧ cpu.next_allocate ≤ cpu1.next_allocate
      ∧ cpu1.next_allocate ≤ cpu.next_allocate + 1 := by
  unfold CPU.step at hex
  split at hex
  · cases hex
  · rename_i data cpuF hf
    split at hex
    · cases hex
    · rename_i inst hd
      unfold CPU.fetch_instruction at hf
      split at hf
      · cases hf
        have h := execute_allocInv
          { cpu with instruction_pointer := cpu.instruction_pointer + 1 }
          inst input cpu1 input1 out1 hinv hov hex
        exact ⟨h.1, h.2.1, h.2.2.1⟩
      · cases hf

/-- Any number of interpreter iterations preserves the allocator invariant
and never decreases the counter, as long as the counter stays inside the
32-bit space. -/
theorem interpretN_allocInv (fuel : Nat) : ∀ (cpu : CPU) (input : List Nat)
    (cpu1 : CPU) (input1 out1 : List Nat),
    AllocInv cpu → cpu.next_allocate + fuel < wordSize →
    CPU.interpretN fuel cpu input = some (cpu1, input1, out1) →
    AllocInv cpu1 ∧ cpu.next_allocate ≤ cpu1.next_allocate := by
  induction fuel with
  | zero =>
      intro cpu input cpu1 input1 out1 hinv hov hex
      simp only [CPU.interpretN] at hex
      cases hex
      exact ⟨hinv, Nat.le_refl _⟩
  | succ m ih =>
      intro cpu input cpu1 input1 out1 hinv hov hex
      simp only [CPU.interpretN] at hex
      split at hex
      · cases hex
        exact ⟨hinv, Nat.le_refl _⟩
      · split at hex
        · cases hex
        · rename_i stepRes cpuS inputS outS hstep
          split at hex
          · cases hex
          · rename_i res2 cpu2 input2 out2 hrec
            cases hex
            have h1 := step_allocInv cpu input cpuS inputS outS hinv (by omega) hstep
            have h13 := h1.2.2
            have h2 := ih cpuS inputS _ _ _ h1.1 (by omega) hrec
            exact ⟨h2.1, Nat.le_trans h1.2.1 h2.2⟩

/-- C9: the allocator counter is 1 (non-zero) at construction and strictly
above every bound identifier; each executed instruction preserves this
invariant and never decreases the counter (as long as it stays inside the
32-bit space), and ALLOC hands out exactly the counter value — non-zero and
inactive — then bumps the counter strictly.  Hence over any run without
counter overflow a freed identifier, being below the counter, is never
handed out again. -/
theorem allocator_counter_invariant :
    (∀ program, AllocInv (CPU.new program))
    ∧ (∀ cpu inst input cpu1 input1 out1,
        AllocInv cpu → cpu.next_allocate + 1 < wordSize →
        CPU.execute_instruction cpu inst input = some (cpu1, input1, out1) →
        AllocInv cpu1 ∧ cpu.next_allocate ≤ cpu1.next_allocate
          ∧ (inst.op_code = OpCode.ALLOC →
               memContains cpu.memory cpu.next_allocate = false
               ∧ cpu1.register_file = cpu.register_file.set inst.r_b cpu.next_allocate
               ∧ cpu1.next_allocate = cpu.next_allocate + 1))
    ∧ (∀ fuel cpu input cpu1 input1 out1,
        AllocInv cpu → cpu.next_allocate + fuel < wordSize →
        CPU.interpretN fuel cpu input = some (cpu1, input1, out1) →
        AllocInv cpu1 ∧ cpu.next_allocate ≤ cpu1.next_allocate) := by
  refine ⟨?_, ?_, ?_⟩
  · intro program
    refine ⟨Nat.one_pos, ?_⟩
    intro k hk
    simp [memContains, memGet, CPU.new] at hk
  · intro cpu inst input cpu1 input1 out1 hinv hov hex
    have h := execute_allocInv cpu inst input cpu1 input1 out1 hinv hov hex
    exact ⟨h.1, h.2.1, fun hAl =>
      ⟨(h.2.2.2 hAl).1, (h.2.2.2 hAl).2.2.1, (h.2.2.2 hAl).2.1⟩⟩
  · intro fuel cpu input cpu1 input1 out1 hinv hov hex
    exact interpretN_allocInv fuel cpu input cpu1 input1 out1 hinv hov hex

/-- Witness for C9: the invariant holds for the initial machine, and an
ALLOC of size 0 executed there hands out id 1 and bumps the counter to 2,
preserving the invariant. -/
theorem allocator_counter_invariant_witness :
    AllocInv (CPU.new [0])
    ∧ AllocInv ({ CPU.new [0] with
                    register_file := [0, 1, 0, 0, 0, 0, 0, 0],
                    memory := [(1, [])],
                    next_allocate := 2 }) := by
  constructor
  · exact allocator_counter_invariant.1 [0]
  · have h := allocator_counter_invariant.2.1 (CPU.new [0])
      { op_code := OpCode.ALLOC, r_a := 0, r_b := 1, r_c := 0, value := 0 } []
      ({ CPU.new [0] with
           register_file := [0, 1, 0, 0, 0, 0, 0, 0],
           memory := [(1, [])],
           next_allocate := 2 }) [] []
      (allocator_counter_invariant.1 [0]) (by decide) (by decide)
    exact h.1

end Cult
